import Mathlib

/-!
Verification development for the cursor-settings-sync extension.

The TypeScript sources are shallowly embedded below.  JavaScript string
objects become Lean `String`; JavaScript plain objects used as string-keyed
dictionaries (gist file sets, processed-file sets) become ordered
association lists (`Fmap`) with JS-object assignment semantics
(`fset` replaces in place or appends, mirroring `obj[k] = v`).
`JSON.parse` of metadata files is embedded as an explicit parser parameter
`parse : String → Option ParsedMeta` (the code only ever reads the
`extensionName` and `github.username` fields of the parsed value); theorems
quantify over it and witnesses instantiate it with concrete table parsers.
A standalone JSON syntax checker (`jsonOk`) is provided to state claims
about JSON validity of concrete contents.
-/

/-! ## String helpers (kernel-reducible replacements for JS string ops) -/

def wsChar (c : Char) : Bool := c = ' ' || c = '\n' || c = '\t' || c = '\r'

/-- JS `String.prototype.trim` (over the whitespace the repo's contents use). -/
def strTrim (s : String) : String :=
  ⟨((s.data.dropWhile wsChar).reverse.dropWhile wsChar).reverse⟩

/-- JS `s.startsWith(p)`. -/
def strStarts (s p : String) : Bool := p.data.isPrefixOf s.data

/-- JS `s.endsWith(p)`. -/
def strEnds (s p : String) : Bool := p.data.isSuffixOf s.data

/-- JS `s.toLowerCase()` (ASCII range, as used for file extensions). -/
def lowerStr (s : String) : String := ⟨s.data.map Char.toLower⟩

/-- JS `s.includes(t)` (substring containment). -/
def strIncludes (s t : String) : Bool :=
  (List.range (s.data.length + 1)).any (fun i => t.data.isPrefixOf (s.data.drop i))

/-- UTF-8 width of one code point (Node `Buffer.byteLength(s, "utf8")` model). -/
def charW (c : Char) : Nat :=
  if c.toNat < 128 then 1
  else if c.toNat < 2048 then 2
  else if c.toNat < 65536 then 3
  else 4

/-- Node `Buffer.byteLength(content, "utf8")`. -/
def utf8Len (s : String) : Nat := s.data.foldl (fun n c => n + charW c) 0

/-- JS `fileName.split(".")`: split a character list at every dot. -/
def splitDot : List Char → List (List Char)
  | [] => [[]]
  | c :: t =>
    match splitDot t with
    | [] => [[]]
    | h :: r => if c = '.' then [] :: h :: r else (c :: h) :: r

/-! ## Ordered string maps with JS-object semantics -/

/-- A JS object used as a string-keyed dictionary of file contents. -/
abbrev Fmap := List (String × String)

/-- Property read `m[k]` (first binding wins; JS objects have unique keys). -/
def fget (m : Fmap) (k : String) : Option String :=
  match m with
  | [] => none
  | p :: t => if p.1 = k then some p.2 else fget t k

/-- Property write `m[k] = v`: replace in place, else append (JS key order). -/
def fset (m : Fmap) (k : String) (v : String) : Fmap :=
  match m with
  | [] => [(k, v)]
  | p :: t => if p.1 = k then (k, v) :: t else p :: fset t k v

/-- Property delete `delete m[k]`. -/
def fdel (m : Fmap) (k : String) : Fmap :=
  match m with
  | [] => []
  | p :: t => if p.1 = k then fdel t k else p :: fdel t k

/-- `for (const [k,v] of Object.entries(l)) m[k] = v` — assign all of `l` onto `m`. -/
def assign (m l : Fmap) : Fmap := l.foldl (fun a p => fset a p.1 p.2) m

/-! ## JSON syntax checker (model of `JSON.parse` succeeding/failing) -/

def jsonWsChar (c : Char) : Bool := c = ' ' || c = '\n' || c = '\t' || c = '\r'

def skipWs (l : List Char) : List Char := l.dropWhile jsonWsChar

def isDigitCh (c : Char) : Bool := '0' ≤ c && c ≤ '9'

/-- One or more digits. -/
def pDigits : List Char → Option (List Char)
  | [] => none
  | c :: t => if isDigitCh c then some (t.dropWhile isDigitCh) else none

def pFrac (l : List Char) : Option (List Char) :=
  match l with
  | '.' :: t => pDigits t
  | _ => some l

def pExpPart (l : List Char) : Option (List Char) :=
  match l with
  | c :: t =>
    if c = 'e' || c = 'E' then
      match t with
      | s :: u => if s = '+' || s = '-' then pDigits u else pDigits t
      | [] => none
    else some l
  | [] => some l

def pNumber (l : List Char) : Option (List Char) := do
  let l1 := match l with
    | '-' :: t => t
    | _ => l
  let l2 ← pDigits l1
  let l3 ← pFrac l2
  pExpPart l3

/-- Consume the rest of a JSON string (after the opening quote). -/
def pStringBody : List Char → Option (List Char)
  | [] => none
  | c :: t =>
    if c = '"' then some t
    else if c = '\\' then
      match t with
      | [] => none
      | _ :: t2 => pStringBody t2
    else pStringBody t

mutual

/-- Parse one JSON value; fuel-bounded recursion. -/
def pVal : Nat → List Char → Option (List Char)
  | 0, _ => none
  | f + 1, l =>
    match skipWs l with
    | [] => none
    | c :: t =>
      if c = '"' then pStringBody t
      else if c = '\x7b' then
        match skipWs t with
        | '\x7d' :: u => some u
        | _ => pMember f t
      else if c = '[' then
        match skipWs t with
        | ']' :: u => some u
        | _ => pElem f t
      else if c = 't' then
        if ['r', 'u', 'e'].isPrefixOf t then some (t.drop 3) else none
      else if c = 'f' then
        if ['a', 'l', 's', 'e'].isPrefixOf t then some (t.drop 4) else none
      else if c = 'n' then
        if ['u', 'l', 'l'].isPrefixOf t then some (t.drop 3) else none
      else pNumber (c :: t)

/-- Parse one object member `"k": v` and the members after it. -/
def pMember : Nat → List Char → Option (List Char)
  | 0, _ => none
  | f + 1, l =>
    match skipWs l with
    | '"' :: t => do
      let r1 ← pStringBody t
      match skipWs r1 with
      | ':' :: r2 => do
        let r3 ← pVal f r2
        match skipWs r3 with
        | ',' :: r4 => pMember f r4
        | '\x7d' :: r4 => some r4
        | _ => none
      | _ => none
    | _ => none

/-- Parse one array element and the elements after it. -/
def pElem : Nat → List Char → Option (List Char)
  | 0, _ => none
  | f + 1, l => do
    let r1 ← pVal f l
    match skipWs r1 with
    | ',' :: r2 => pElem f r2
    | ']' :: r2 => some r2
    | _ => none

end

/-- Whether `JSON.parse(s)` would succeed (syntax check of the JSON grammar). -/
def jsonOk (s : String) : Bool :=
  match pVal (s.data.length + 1) s.data with
  | some rest => (skipWs rest).isEmpty
  | none => false

/-! ## FileProcessor (src/fileProcessor.ts) -/

inductive FKind | text | json | binary | directory
deriving DecidableEq, Repr

structure ProcessedFile where
  content : String
  type : FKind
  valid : Bool
deriving DecidableEq, Repr

/-- Map a lower-cased extension to a category (the `switch` in `getFileType`). -/
def extKind (e : String) : FKind :=
  if e = "json" then FKind.json
  else if e = "txt" || e = "md" || e = "log" || e = "conf" || e = "config" then FKind.text
  else FKind.binary

/-- `FileProcessor.getFileType`: category by extension (`split(".").pop()`). -/
def getFileType (fileName : String) : FKind :=
  match (splitDot fileName.data).getLast? with
  | none => FKind.binary
  | some ext => extKind ⟨ext.map Char.toLower⟩

/-- Append a trailing newline when missing. -/
def padNl (content : String) : String :=
  if strEnds content "\n" then content else content ++ "\n"

/-- `FileProcessor.processJsonFile`: emptiness check only, content passed as-is. -/
def processJsonFile (content : String) : ProcessedFile :=
  if strTrim content = "" then ⟨"", FKind.json, false⟩
  else ⟨padNl content, FKind.json, true⟩

/-- `\r\n` and `\r` → `\n` (the `replace` chain in `processTextFile`). -/
def normNewlines : List Char → List Char
  | [] => []
  | '\r' :: '\n' :: t => '\n' :: normNewlines t
  | '\r' :: t => '\n' :: normNewlines t
  | c :: t => c :: normNewlines t

/-- `FileProcessor.processTextFile`. -/
def processTextFile (content : String) : ProcessedFile :=
  if strTrim content = "" then ⟨"", FKind.text, false⟩
  else ⟨padNl (strTrim ⟨normNewlines content.data⟩), FKind.text, true⟩

/-- `FileProcessor.processSingleFile` (the per-file classification pipeline). -/
def processSingleFile (fileName content : String) : ProcessedFile :=
  match getFileType fileName with
  | FKind.json => processJsonFile content
  | FKind.text => processTextFile content
  | _ => ⟨"", FKind.binary, false⟩

/-- `FileProcessor.convertToGistFormat`: keep only valid files. -/
def convertToGistFormat (processed : List (String × ProcessedFile)) : Fmap :=
  processed.filterMap (fun p => if p.2.valid then some (p.1, p.2.content) else none)

/-! ## Configuration record (src/types.ts `ExtensionConfig`) -/

structure SettingsCfg where
  path : String
  includeHidden : Bool
deriving DecidableEq, Repr

structure GithubCfg where
  personalAccessToken : String
  username : String
  gistId : Option String
  gistDescription : String
  gistPublic : Bool
  apiBaseUrl : String
  userAgent : String
deriving DecidableEq, Repr

structure SyncCfg where
  autoSync : Bool
  backupBeforeSync : Bool
  includeHidden : Bool
deriving DecidableEq, Repr

structure ExtensionConfig where
  extensionName : String
  settings : SettingsCfg
  github : GithubCfg
  sync : SyncCfg
  includedDirectories : List String
deriving DecidableEq, Repr

/-- `getDefaultConfig` (src/config.ts). -/
def getDefaultConfig : ExtensionConfig :=
  { extensionName := "cursor-settings-sync"
    settings := { path := "", includeHidden := false }
    github :=
      { personalAccessToken := ""
        username := ""
        gistId := none
        gistDescription := "Cursor Settings Sync Backup"
        gistPublic := false
        apiBaseUrl := "https://api.github.com"
        userAgent := "Cursor-Settings-Sync-Extension" }
    sync := { autoSync := false, backupBeforeSync := true, includeHidden := false }
    includedDirectories := [] }

/-! ## JSON serialization of the transmitted metadata files

`JSON.stringify(x, null, 2)` of the concrete record shapes the code sends. -/

def hexDigitCh (n : Nat) : Char :=
  if n < 10 then Char.ofNat (48 + n) else Char.ofNat (87 + n)

def jsonEscChar (c : Char) : String :=
  if c = '"' then "\\\""
  else if c = '\\' then "\\\\"
  else if c = '\n' then "\\n"
  else if c = '\r' then "\\r"
  else if c = '\t' then "\\t"
  else if c.toNat < 32 then
    "\\u00" ++ String.singleton (hexDigitCh (c.toNat / 16)) ++ String.singleton (hexDigitCh (c.toNat % 16))
  else String.singleton c

/-- A JSON string literal. -/
def jstr (s : String) : String :=
  "\"" ++ s.data.foldl (fun a c => a ++ jsonEscChar c) "" ++ "\""

def jbool (b : Bool) : String := if b then "true" else "false"

def jOptStr (o : Option String) : String :=
  match o with
  | none => "null"
  | some s => jstr s

/-- A JSON array of strings at nesting depth 1 of a 2-space-indented stringify. -/
def jarrStrings (l : List String) : String :=
  match l with
  | [] => "[]"
  | _ => "[\n" ++ String.intercalate ",\n" (l.map (fun f => "    " ++ jstr f)) ++ "\n  ]"

/-- The identity file (`cursor-git-sync-storage.json`) content: the deep-copied
configuration with `github.personalAccessToken` set to `undefined` (hence
omitted by `JSON.stringify`) and `includedDirectories` deleted, serialized with
2-space indent.  Shared by `GitHubService.createGist` and
`GitHubService.updateGist`. -/
def identityFileContent (c : ExtensionConfig) : String :=
  "\x7b\n" ++
  "  \"extensionName\": " ++ jstr c.extensionName ++ ",\n" ++
  "  \"settings\": \x7b\n" ++
  "    \"path\": " ++ jstr c.settings.path ++ ",\n" ++
  "    \"includeHidden\": " ++ jbool c.settings.includeHidden ++ "\n" ++
  "  \x7d,\n" ++
  "  \"github\": \x7b\n" ++
  "    \"username\": " ++ jstr c.github.username ++ ",\n" ++
  "    \"gistId\": " ++ jOptStr c.github.gistId ++ ",\n" ++
  "    \"gistDescription\": " ++ jstr c.github.gistDescription ++ ",\n" ++
  "    \"gistPublic\": " ++ jbool c.github.gistPublic ++ ",\n" ++
  "    \"apiBaseUrl\": " ++ jstr c.github.apiBaseUrl ++ ",\n" ++
  "    \"userAgent\": " ++ jstr c.github.userAgent ++ "\n" ++
  "  \x7d,\n" ++
  "  \"sync\": \x7b\n" ++
  "    \"autoSync\": " ++ jbool c.sync.autoSync ++ ",\n" ++
  "    \"backupBeforeSync\": " ++ jbool c.sync.backupBeforeSync ++ ",\n" ++
  "    \"includeHidden\": " ++ jbool c.sync.includeHidden ++ "\n" ++
  "  \x7d\n" ++
  "\x7d"

/-- The manifest file (`timestamp.json`) content (a `TimestampData` record). -/
def timestampFileContent (now ident : String) (files : List String) : String :=
  "\x7b\n" ++
  "  \"timestamp\": " ++ jstr now ++ ",\n" ++
  "  \"extensionName\": " ++ jstr ident ++ ",\n" ++
  "  \"files\": " ++ jarrStrings files ++ "\n" ++
  "\x7d"

/-! ## GitHubService (the first, current revision in the github module) -/

def storageName : String := "cursor-git-sync-storage.json"

def tsName : String := "timestamp.json"

/-- The two reserved gist member names. -/
def reservedName (n : String) : Bool := n == storageName || n == tsName

/-- A remote gist as the code sees it. -/
structure Gist where
  id : String
  files : Fmap
deriving DecidableEq, Repr

/-- The two metadata fields of a stored configuration record that the services
read after `JSON.parse` (`config.extensionName`, `config.github?.username`).
`JSON.parse` itself is embedded as an explicit `parse` parameter. -/
structure ParsedMeta where
  extensionName : Option String
  githubUsername : Option String
deriving DecidableEq, Repr

def storeGet (store : List Gist) (gid : String) : Option Fmap :=
  (store.find? (fun g => g.id == gid)).map Gist.files

def storeSet (store : List Gist) (gid : String) (files : Fmap) : List Gist :=
  store.map (fun g => if g.id = gid then ⟨gid, files⟩ else g)

/-- JS `[...new Set(l)]`: deduplicate keeping first-insertion order. -/
def dedupFirst : List String → List String
  | [] => []
  | x :: t => x :: (dedupFirst t).filter (fun y => y ≠ x)

/-- `GitHubService.createGist`: the transmitted file set
(`cursor-git-sync-storage.json`, `timestamp.json`, then the spread of
`fileContents`, with JS spread override semantics). -/
def createGistFiles (cfg : ExtensionConfig) (now : String) (files : List String)
    (fileContents : Fmap) : Fmap :=
  assign
    [(storageName, identityFileContent cfg),
     (tsName, timestampFileContent now cfg.extensionName files)]
    fileContents

/-- The merge loops of `GitHubService.updateGist` (lines 396-423): start from
the fetched gist's non-reserved entries, then add each `fileContents` entry
unless its content is empty (`if (!content || content.length === 0) continue`). -/
def updateGistMerge (existingFiles fileContents : Fmap) : Fmap :=
  let start := assign [] (existingFiles.filter (fun p => !reservedName p.1))
  fileContents.foldl (fun a p => if p.2 = "" then a else fset a p.1 p.2) start

/-- `GitHubService.validateAndCleanFiles`: drop empty-content entries, throw on
a file larger than 10 MiB (UTF-8 bytes). -/
def validateAndCleanFiles : Fmap → Except String Fmap
  | [] => Except.ok []
  | p :: t =>
    if p.2 = "" then validateAndCleanFiles t
    else if utf8Len p.2 > 10 * 1024 * 1024 then
      Except.error ("File " ++ p.1 ++ " is too large")
    else
      match validateAndCleanFiles t with
      | Except.ok r => Except.ok (p :: r)
      | Except.error e => Except.error e

/-- `GitHubService.updateGist` after the gist has been fetched: merge, compute
the manifest file list, validate, and assemble the PATCH payload's file set
(including the final empty-content validation loop). -/
def updateGistPayload (cfg : ExtensionConfig) (now : String) (existingFiles : Fmap)
    (files : List String) (fileContents : Fmap) : Except String Fmap :=
  let merged := updateGistMerge existingFiles fileContents
  let allFiles := (dedupFirst (existingFiles.map Prod.fst ++ files)).filter
    (fun f => !reservedName f)
  match validateAndCleanFiles merged with
  | Except.error e => Except.error e
  | Except.ok cleaned =>
    let gistFiles := assign
      [(storageName, identityFileContent cfg),
       (tsName, timestampFileContent now cfg.extensionName allFiles)]
      cleaned
    if gistFiles.any (fun p => p.2 = "") then
      Except.error "Invalid file structure"
    else Except.ok gistFiles

/-- Whether a gist belongs to this extension, as `cleanupOldGists` decides it:
the storage file is present and parses with a matching `extensionName`
(a parse failure is caught per-gist and treated as non-match). -/
def gistOwned (ident : String) (parse : String → Option ParsedMeta) (files : Fmap) : Bool :=
  match fget files storageName with
  | none => false
  | some c =>
    match parse c with
    | none => false
    | some cfg => if cfg.extensionName = some ident then true else false

/-- `GitHubService.cleanupOldGists`: iterate over the listed gists, skip
`excludeGistId`, delete every other owned gist. -/
def cleanupOldGists (ident : String) (parse : String → Option ParsedMeta)
    (excludeGistId : String) (store : List Gist) : List Gist :=
  store.foldl
    (fun acc g =>
      if g.id = excludeGistId then acc
      else if gistOwned ident parse g.files then acc.filter (fun h => h.id ≠ g.id)
      else acc)
    store

/-- Priority 1 of `findExistingGist`: both identification files present,
storage content truthy, parses, `extensionName` matches. -/
def p1Check (ident : String) (parse : String → Option ParsedMeta) (g : Gist) : Option String :=
  match fget g.files storageName with
  | none => none
  | some c =>
    if (fget g.files tsName).isSome ∧ c ≠ "" then
      match parse c with
      | some cfg => if cfg.extensionName = some ident then some g.id else none
      | none => none
    else none

/-- Priority 2: storage file present with truthy content, parses, matches. -/
def p2Check (ident : String) (parse : String → Option ParsedMeta) (g : Gist) : Option String :=
  match fget g.files storageName with
  | none => none
  | some c =>
    if c ≠ "" then
      match parse c with
      | some cfg => if cfg.extensionName = some ident then some g.id else none
      | none => none
    else none

/-- Priority 3: same username and a truthy, family-keyword extension name. -/
def p3Check (ident uname : String) (parse : String → Option ParsedMeta) (g : Gist) :
    Option String :=
  match fget g.files storageName with
  | none => none
  | some c =>
    match parse c with
    | none => none
    | some cfg =>
      match cfg.extensionName with
      | none => none
      | some e =>
        if cfg.githubUsername = some uname ∧ e ≠ "" ∧
            (strIncludes e "cursor" || strIncludes e "git" || strIncludes e "sync") then
          some g.id
        else none

/-- Priority 4: any gist containing the storage file at all. -/
def p4Check (g : Gist) : Option String :=
  if (fget g.files storageName).isSome then some g.id else none

/-- `GitHubService.findExistingGist` (the four-priority revision): tiers
evaluated in order over the listed gists, first match wins; priority 3 only
runs when the configured username is truthy. -/
def findExistingGistModel (ident uname : String) (parse : String → Option ParsedMeta)
    (store : List Gist) : Option String :=
  match store.findSome? (p1Check ident parse) with
  | some i => some i
  | none =>
    match store.findSome? (p2Check ident parse) with
    | some i => some i
    | none =>
      match (if uname ≠ "" then store.findSome? (p3Check ident uname parse) else none) with
      | some i => some i
      | none => store.findSome? p4Check

/-! ## SyncService push flow (src/syncService.ts) -/

/-- `replaceGistWithMerge` line 296-337: drop the reserved entries of the
fetched gist, then rebuild the merged object by inserting the existing files
and then the newly processed local files (local wins on collision). -/
def replaceMergeFiles (gistFiles newFileContents : Fmap) : Fmap :=
  assign (assign [] (gistFiles.filter (fun p => !reservedName p.1))) newFileContents

/-- The non-reserved file set a push against an existing gist transmits:
`replaceGistWithMerge`'s merge fed into `updateGist`'s merge and validation
(both fetches of the gist return the same snapshot — the calls are
sequential with no interleaved writer). -/
def pushMergedFiles (gistFiles localFiles : Fmap) : Except String Fmap :=
  validateAndCleanFiles (updateGistMerge gistFiles (replaceMergeFiles gistFiles localFiles))

/-- Observable state of the push flow: the cached gist id, its persisted copy,
the remote store, the ids of gists created, and the user-facing messages. -/
structure SyncSt where
  cfgGistId : Option String
  savedGistId : Option String
  store : List Gist
  createdIds : List String
  msgs : List String
deriving DecidableEq, Repr

/-- How `replaceGistWithMerge`'s body finished: an early `return`, a thrown
error (to be swallowed by its own catch), or full completion. -/
inductive ReplaceExit
  | earlyReturn
  | threw (msg : String)
  | completed
deriving DecidableEq, Repr

/-- The body of `SyncService.replaceGistWithMerge`: fetch the gist (a missing
gist is the 404 case: the stored id is cleared and saved, then an error whose
message contains "no longer exists" is thrown), verify `timestamp.json`,
merge, call `updateGist`, save the config, clean up other gists. -/
def replaceBody (cfg : ExtensionConfig) (parse : String → Option ParsedMeta) (now : String)
    (localProcessed : Fmap) (fileNames : List String) (st : SyncSt) : SyncSt × ReplaceExit :=
  if strTrim cfg.github.personalAccessToken = "" then
    ({st with msgs := st.msgs ++ ["No GitHub authentication token found."]}, ReplaceExit.earlyReturn)
  else
    match st.cfgGistId with
    | none =>
      ({st with msgs := st.msgs ++ ["No Gist ID found. Please push your configuration first."]},
       ReplaceExit.earlyReturn)
    | some gid =>
      match storeGet st.store gid with
      | none =>
        ({st with cfgGistId := none, savedGistId := none},
         ReplaceExit.threw
           ("Stored gist ID " ++ gid ++ " no longer exists. Please try pushing again to create a new gist."))
      | some gistFiles =>
        match fget gistFiles tsName with
        | none => (st, ReplaceExit.threw "No timestamp.json found in Gist")
        | some tc =>
          match parse tc with
          | none => (st, ReplaceExit.threw "Invalid timestamp.json format")
          | some td =>
            if td.extensionName ≠ some cfg.extensionName then
              (st, ReplaceExit.threw "Gist does not belong to this extension")
            else
              let merged := replaceMergeFiles gistFiles localProcessed
              match updateGistPayload cfg now gistFiles fileNames merged with
              | Except.error e => (st, ReplaceExit.threw e)
              | Except.ok newFiles =>
                let st1 := {st with store := storeSet st.store gid newFiles,
                                    savedGistId := st.cfgGistId}
                let st2 := {st1 with store := cleanupOldGists cfg.extensionName parse gid st1.store}
                (st2, ReplaceExit.completed)

/-- `SyncService.replaceGistWithMerge`: the body wrapped in the method's own
try/catch, which catches every thrown error, shows a failure message, and
returns normally — it never rethrows. -/
def replaceGistWithMergeModel (cfg : ExtensionConfig) (parse : String → Option ParsedMeta)
    (now : String) (localProcessed : Fmap) (fileNames : List String) (st : SyncSt) : SyncSt :=
  match replaceBody cfg parse now localProcessed fileNames st with
  | (st', ReplaceExit.earlyReturn) => st'
  | (st', ReplaceExit.threw e) =>
    {st' with msgs := st'.msgs ++ ["Failed to replace Gist: " ++ e]}
  | (st', ReplaceExit.completed) =>
    {st' with msgs := st'.msgs ++ ["Gist updated successfully with merged content"]}

/-- `SyncService.pushConfiguration`: resolve a gist id (stored id, else
discovery), then either replace-with-merge or create a new gist followed by
cleanup and config save.  Because `replaceGistWithMerge` swallows its own
errors and returns normally, `pushConfiguration`'s catch block around it
(including the `'no longer exists'` fallback that would create a new gist)
can never run; the model mirrors that by calling the total
`replaceGistWithMergeModel` and returning its state unchanged. -/
def pushConfigurationModel (cfg : ExtensionConfig) (parse : String → Option ParsedMeta)
    (now : String) (localProcessed : Fmap) (fileNames : List String) (freshId : String)
    (st : SyncSt) : SyncSt :=
  if strTrim cfg.github.personalAccessToken = "" then
    {st with msgs := st.msgs ++ ["No GitHub authentication token found."]}
  else
    match
      (match st.cfgGistId with
       | some g => (some g, st)
       | none =>
         match findExistingGistModel cfg.extensionName cfg.github.username parse st.store with
         | some g => (some g, {st with cfgGistId := some g})
         | none => (none, st)) with
    | (some _, st1) => replaceGistWithMergeModel cfg parse now localProcessed fileNames st1
    | (none, st1) =>
      let newFiles := createGistFiles cfg now fileNames localProcessed
      let st2 := {st1 with store := st1.store ++ [(⟨freshId, newFiles⟩ : Gist)],
                           cfgGistId := some freshId,
                           createdIds := st1.createdIds ++ [freshId]}
      let st3 := {st2 with store := cleanupOldGists cfg.extensionName parse freshId st2.store}
      let st4 := {st3 with savedGistId := st3.cfgGistId}
      {st4 with msgs := st4.msgs ++ ["Configuration created successfully"]}

/-! ## PullManager (src/pullManager.ts) -/

inductive PullError
  | noGistId
  | noSelection
  | gistNotFound
  | noTimestamp
  | invalidTimestampFormat
  | identityMismatch
  | noMatchingSelection
deriving DecidableEq, Repr

/-- One remote-store request, with its effect captured by `applyRemoteOp`. -/
inductive RemoteOp
  | fetch (gid : String)
  | createOp (gid : String) (files : Fmap)
  | patch (gid : String) (files : Fmap)
  | removeOp (gid : String)
deriving DecidableEq, Repr

def applyRemoteOp (store : List Gist) : RemoteOp → List Gist
  | RemoteOp.fetch _ => store
  | RemoteOp.createOp g f => store ++ [⟨g, f⟩]
  | RemoteOp.patch g f => storeSet store g f
  | RemoteOp.removeOp g => store.filter (fun h => h.id ≠ g)

/-- One local filesystem effect of a pull, in program order. -/
inductive LocalEvent
  | backupDelete (name : String)
  | backupWrite (name content : String)
  | settingsWrite (name content : String)
deriving DecidableEq, Repr

/-- The local state a pull touches: the settings directory, and the backup
directory (`backup-cursor-git-sync`) with its existence flag. -/
structure LocalFs where
  settings : Fmap
  backupDirExists : Bool
  backup : Fmap
deriving DecidableEq, Repr

instance {ε α : Type} [DecidableEq ε] [DecidableEq α] : DecidableEq (Except ε α) := fun a b =>
  match a, b with
  | Except.ok x, Except.ok y =>
    if h : x = y then isTrue (by rw [h]) else isFalse (fun e => h (by injection e))
  | Except.error x, Except.error y =>
    if h : x = y then isTrue (by rw [h]) else isFalse (fun e => h (by injection e))
  | Except.ok _, Except.error _ => isFalse (fun e => by injection e)
  | Except.error _, Except.ok _ => isFalse (fun e => by injection e)

structure PullOutput where
  outcome : Except PullError (List String)
  remoteOps : List RemoteOp
  events : List LocalEvent
  fs : LocalFs
deriving DecidableEq, Repr

/-- The names skipped when extracting gist files to the temp directory. -/
def extractedFiles (files : Fmap) : Fmap :=
  files.filter
    (fun p => !(p.1 == storageName || p.1 == tsName || p.1 == "cursor-git-sync-manifest.json"))

/-- The internal-name exclusion of the restore filter
(`fileName.startsWith('cursor-git-sync-') || fileName === 'timestamp.json'`). -/
def isInternalName (n : String) : Bool := strStarts n "cursor-git-sync-" || n == tsName

/-- Whether a remote filename matches the user's selection. -/
def matchesSelection (selection : List String) (n : String) : Bool :=
  selection.any (fun s => n == s || strStarts n (s ++ "/") || n == s ++ ".json")

/-- `filesToRestore`: the extracted filenames that pass the selection filter. -/
def restoreTargets (selection : List String) (files : Fmap) : List String :=
  ((extractedFiles files).map Prod.fst).filter
    (fun n => !(strStarts n "cursor-git-sync-") && !(n == tsName) && matchesSelection selection n)

/-- The conflict scan of `manageBackupDirectory`: stale backup copies of the
target files, checked only when the backup directory already exists. -/
def conflictsOf (fs : LocalFs) (targets : List String) : List String :=
  if fs.backupDirExists then targets.filter (fun f => (fget fs.backup f).isSome) else []

/-- The backup copies taken: each target that currently exists locally,
paired with its current content. -/
def backupPairs (settings : Fmap) (targets : List String) : Fmap :=
  targets.filterMap (fun f => (fget settings f).map (fun c => (f, c)))

/-- Steps 6-7 of a successful pull: `manageBackupDirectory` (delete stale
backup conflicts, then copy existing targets into the backup) followed by
`copyFilesToSettings` (manifest-classified files first, then regular files).
`isManifest` embeds `PullManager.isManifestFile` (a content-based JSON check)
as a parameter. -/
def restoreStep (isManifest : String → String → Bool) (allFiles : Fmap)
    (targets : List String) (fs : LocalFs) : List LocalEvent × LocalFs :=
  let conflicts := conflictsOf fs targets
  let backup1 := conflicts.foldl (fun b f => fdel b f) fs.backup
  let pairs := backupPairs fs.settings targets
  let backup2 := assign backup1 pairs
  let contentOf := fun f => (fget allFiles f).getD ""
  let ordered := targets.filter (fun f => isManifest f (contentOf f)) ++
    targets.filter (fun f => !isManifest f (contentOf f))
  let writePairs := ordered.map (fun f => (f, contentOf f))
  (conflicts.map LocalEvent.backupDelete ++
     pairs.map (fun p => LocalEvent.backupWrite p.1 p.2) ++
     writePairs.map (fun p => LocalEvent.settingsWrite p.1 p.2),
   ⟨assign fs.settings writePairs, true, backup2⟩)

/-- Step 2 of a pull once `timestamp.json` is present: empty content skips
verification; otherwise the content must parse and carry this extension's
name. -/
def verifyTimestamp (ident : String) (parse : String → Option ParsedMeta) (tc : String) :
    Option PullError :=
  if strTrim tc = "" then none
  else
    match parse tc with
    | none => some PullError.invalidTimestampFormat
    | some td =>
      if td.extensionName = some ident then none else some PullError.identityMismatch

/-- `PullManager.pullConfiguration`: the full pull pipeline over the embedded
state.  The only remote request it ever issues is the single fetch. -/
def pullConfigurationModel (ident : String) (parse : String → Option ParsedMeta)
    (isManifest : String → String → Bool) (selection : List String)
    (cfgGistId : Option String) (store : List Gist) (fs : LocalFs) : PullOutput :=
  match cfgGistId with
  | none => ⟨Except.error PullError.noGistId, [], [], fs⟩
  | some gid =>
    if selection.isEmpty then ⟨Except.error PullError.noSelection, [], [], fs⟩
    else
      match storeGet store gid with
      | none => ⟨Except.error PullError.gistNotFound, [RemoteOp.fetch gid], [], fs⟩
      | some files =>
        match fget files tsName with
        | none => ⟨Except.error PullError.noTimestamp, [RemoteOp.fetch gid], [], fs⟩
        | some tc =>
          match verifyTimestamp ident parse tc with
          | some e => ⟨Except.error e, [RemoteOp.fetch gid], [], fs⟩
          | none =>
            let targets := restoreTargets selection files
            if targets.isEmpty then
              ⟨Except.error PullError.noMatchingSelection, [RemoteOp.fetch gid], [], fs⟩
            else
              let r := restoreStep isManifest (extractedFiles files) targets fs
              ⟨Except.ok targets, [RemoteOp.fetch gid], r.1, r.2⟩

/-! ## Concrete instantiation data used by witnesses -/

/-- A concrete table `JSON.parse` model for witnesses: the content `"IDENTOK"`
parses to a record whose `extensionName` is this extension's identity;
everything else (including the empty string) fails to parse. -/
def tableParse : String → Option ParsedMeta := fun s =>
  if s = "IDENTOK" then some ⟨some "cursor-settings-sync", none⟩ else none

/-- A configuration with a usable token and a stored gist id `"g1"`. -/
def cfgWithToken : ExtensionConfig :=
  { getDefaultConfig with
      github := { getDefaultConfig.github with personalAccessToken := "tok", gistId := some "g1" } }

/-- Cleanup witness store: three gists owned by this identity (`g1` just
written, `g2`/`g4` stale) plus one whose identity file does not parse. -/
def cleanupStoreW : List Gist :=
  [⟨"g1", [("cursor-git-sync-storage.json", "IDENTOK")]⟩,
   ⟨"g2", [("cursor-git-sync-storage.json", "IDENTOK")]⟩,
   ⟨"g3", [("cursor-git-sync-storage.json", "garbage")]⟩,
   ⟨"g4", [("cursor-git-sync-storage.json", "IDENTOK")]⟩]

/-- Discovery witness store: one unparseable candidate and exactly one gist
whose identity file parses with the matching identity — and which has no
`timestamp.json`, so it cannot be a tier-1 match. -/
def findStoreW : List Gist :=
  [⟨"gX", [("cursor-git-sync-storage.json", "garbage")]⟩,
   ⟨"gY", [("cursor-git-sync-storage.json", "IDENTOK")]⟩]

/-! ## Library lemmas about the map and list operations -/

theorem fget_fset (m : Fmap) (k v k') :
    fget (fset m k v) k' = if k = k' then some v else fget m k' := by
  induction m with
  | nil => by_cases h : k = k' <;> simp [fset, fget, h]
  | cons p t ih =>
    by_cases hp : p.1 = k
    · by_cases h : k = k' <;> simp [fset, fget, hp, h]
    · simp only [fset, hp, if_false, fget]
      by_cases hp' : p.1 = k'
      · have : ¬ k = k' := fun e => hp (e ▸ hp')
        simp [hp', this]
      · simp [hp', ih]

theorem fget_fdel (m : Fmap) (k k') :
    fget (fdel m k) k' = if k = k' then none else fget m k' := by
  induction m with
  | nil => simp [fdel, fget]
  | cons p t ih =>
    rcases p with ⟨a, b⟩
    simp only [fdel]
    by_cases hak : a = k
    · rw [if_pos hak, ih]
      by_cases h : k = k'
      · rw [if_pos h, if_pos h]
      · have hak' : ¬ a = k' := fun e => h (hak.symm.trans e)
        rw [if_neg h, if_neg h]
        simp [fget, hak']
    · rw [if_neg hak]
      simp only [fget]
      by_cases hak' : a = k'
      · have h : ¬ k = k' := fun e => hak (e ▸ hak')
        rw [if_pos hak', if_neg h, if_pos hak']
      · rw [if_neg hak', if_neg hak', ih]

theorem fget_mem {m : Fmap} {k v} (h : fget m k = some v) : (k, v) ∈ m := by
  induction m with
  | nil => simp [fget] at h
  | cons p t ih =>
    rcases p with ⟨a, b⟩
    simp only [fget] at h
    by_cases hp : a = k
    · simp [hp] at h
      subst hp
      subst h
      exact List.mem_cons_self _ _
    · simp [hp] at h
      exact List.mem_cons_of_mem _ (ih h)

theorem mem_fset {m : Fmap} {k v} {p} (h : p ∈ fset m k v) : p ∈ m ∨ p = (k, v) := by
  induction m with
  | nil => simp [fset] at h; simp [h]
  | cons q t ih =>
    simp only [fset] at h
    by_cases hq : q.1 = k
    · simp [hq] at h
      rcases h with h | h
      · right; simp [h]
      · left; simp [h]
    · simp [hq] at h
      rcases h with h | h
      · left; simp [h]
      · rcases ih h with h' | h'
        · left; simp [h']
        · right; exact h'

theorem mem_assign {m l : Fmap} {p} (h : p ∈ assign m l) : p ∈ m ∨ p ∈ l := by
  induction l generalizing m with
  | nil => simp [assign] at h; simp [h]
  | cons q t ih =>
    simp only [assign, List.foldl] at h
    rcases ih h with h' | h'
    · rcases mem_fset h' with h'' | h''
      · left; exact h''
      · right; simp [h'']
    · right; simp [h']

theorem mem_keys_fset {m : Fmap} {k v x} (h : x ∈ (fset m k v).map Prod.fst) :
    x ∈ m.map Prod.fst ∨ x = k := by
  rcases List.mem_map.mp h with ⟨p, hp, hx⟩
  rcases mem_fset hp with h' | h'
  · left; exact hx ▸ List.mem_map_of_mem Prod.fst h'
  · right; rw [← hx, h']

theorem nodup_keys_fset {m : Fmap} (hn : (m.map Prod.fst).Nodup) (k v) :
    ((fset m k v).map Prod.fst).Nodup := by
  induction m with
  | nil => simp [fset]
  | cons q t ih =>
    rcases q with ⟨a, b⟩
    simp only [List.map, List.nodup_cons] at hn
    by_cases hq : a = k
    · simp only [fset, hq, if_true]
      simp only [List.map, List.nodup_cons]
      exact ⟨hq ▸ hn.1, hn.2⟩
    · simp only [fset, hq, if_false]
      simp only [List.map, List.nodup_cons]
      refine ⟨?_, ih hn.2⟩
      intro hmem
      rcases mem_keys_fset hmem with h' | h'
      · exact hn.1 h'
      · exact hq h'

theorem nodup_keys_assign {m : Fmap} (hn : (m.map Prod.fst).Nodup) (l : Fmap) :
    ((assign m l).map Prod.fst).Nodup := by
  induction l generalizing m with
  | nil => simpa [assign] using hn
  | cons p t ih => exact ih (nodup_keys_fset hn p.1 p.2)

theorem fget_eq_none_of_not_mem_keys {m : Fmap} {k} (h : k ∉ m.map Prod.fst) :
    fget m k = none := by
  induction m with
  | nil => simp [fget]
  | cons p t ih =>
    simp only [List.map, List.mem_cons, not_or] at h
    have hp : ¬ p.1 = k := fun e => h.1 e.symm
    simp [fget, hp, ih h.2]

/-- Reading a key after assigning a key-distinct list: the assigned binding wins. -/
theorem fget_assign {l : Fmap} (hn : (l.map Prod.fst).Nodup) (m : Fmap) (k : String) :
    fget (assign m l) k = match fget l k with
      | some v => some v
      | none => fget m k := by
  induction l generalizing m with
  | nil => simp [assign, fget]
  | cons p t ih =>
    simp only [List.map, List.nodup_cons] at hn
    simp only [assign, List.foldl] at *
    by_cases hp : p.1 = k
    · have ht : fget t k = none := by
        apply fget_eq_none_of_not_mem_keys
        rw [← hp]
        exact hn.1
      rw [ih hn.2, ht]
      simp [fget, hp, fget_fset]
    · rw [ih hn.2]
      simp only [fget, hp, if_false]
      cases fget t k <;> simp [fget_fset, hp]

theorem fget_assign_some {l : Fmap} (hn : (l.map Prod.fst).Nodup) (m : Fmap) {k v : String}
    (h : fget l k = some v) : fget (assign m l) k = some v := by
  rw [fget_assign hn, h]

theorem fget_assign_none {l : Fmap} (hn : (l.map Prod.fst).Nodup) (m : Fmap) {k : String}
    (h : fget l k = none) : fget (assign m l) k = fget m k := by
  rw [fget_assign hn, h]

theorem validateAndCleanFiles_ok {m : Fmap}
    (h : ∀ p ∈ m, p.2 ≠ "" ∧ utf8Len p.2 ≤ 10485760) :
    validateAndCleanFiles m = Except.ok m := by
  induction m with
  | nil => rfl
  | cons p t ih =>
    have hp := h p (List.mem_cons_self p t)
    have ht : ∀ q ∈ t, q.2 ≠ "" ∧ utf8Len q.2 ≤ 10485760 :=
      fun q hq => h q (List.mem_cons_of_mem p hq)
    unfold validateAndCleanFiles
    rw [if_neg hp.1, if_neg (by omega : ¬ utf8Len p.2 > 10 * 1024 * 1024), ih ht]

theorem fget_foldNE {l : Fmap} (hn : (l.map Prod.fst).Nodup) (m : Fmap) (k : String) :
    fget (l.foldl (fun a p => if p.2 = "" then a else fset a p.1 p.2) m) k =
      match fget l k with
      | some v => if v = "" then fget m k else some v
      | none => fget m k := by
  induction l generalizing m with
  | nil => simp [fget]
  | cons p t ih =>
    rcases p with ⟨a, b⟩
    simp only [List.map, List.nodup_cons] at hn
    simp only [List.foldl]
    rw [ih hn.2]
    by_cases hp : a = k
    · subst hp
      have ht : fget t a = none := fget_eq_none_of_not_mem_keys hn.1
      have hR : fget ((a, b) :: t) a = some b := by simp [fget]
      rw [ht, hR]
      by_cases hv : b = "" <;> simp [hv, fget_fset]
    · have hR : fget ((a, b) :: t) k = fget t k := by simp [fget, hp]
      rw [hR]
      cases hfk : fget t k with
      | none =>
        by_cases hv : b = "" <;> simp [hv, fget_fset, hp]
      | some v =>
        by_cases hw : v = "" <;> by_cases hv : b = "" <;> simp [hw, hv, fget_fset, hp]

theorem mem_foldNE {l m : Fmap} {p}
    (h : p ∈ l.foldl (fun a q => if q.2 = "" then a else fset a q.1 q.2) m) :
    p ∈ m ∨ p ∈ l := by
  induction l generalizing m with
  | nil => simp [List.foldl] at h; simp [h]
  | cons q t ih =>
    simp only [List.foldl] at h
    rcases ih h with h' | h'
    · by_cases hv : q.2 = ""
      · rw [if_pos hv] at h'; left; exact h'
      · rw [if_neg hv] at h'
        rcases mem_fset h' with h'' | h''
        · left; exact h''
        · right; rw [h'']; exact List.mem_cons_self _ _
    · right; exact List.mem_cons_of_mem _ h'

/-! ## Claim theorems -/

/-- C1 counterexample: a remote-only, non-reserved file with empty content is
dropped from the transmitted merged set instead of being preserved untouched
(the update step skips empty entries and validation removes them). -/
theorem claim_C1_cex :
    pushMergedFiles [("notes.txt", "")] [("settings.json", "x\n")]
        = Except.ok [("settings.json", "x\n")] ∧
      reservedName "notes.txt" = false ∧
      fget [(("notes.txt" : String), ("" : String))] "notes.txt" = some "" ∧
      fget [(("settings.json" : String), ("x\n" : String))] "notes.txt" = none := by
  refine ⟨by decide, by decide, by decide, by decide⟩

/-- C1 (amended): for remote and local maps without the reserved names, with
all contents non-empty and at most 10 MiB, the transmitted merged set keeps
every local entry (local wins on collision) and every remote-only entry
unchanged.  (Without the non-emptiness proviso the update step skips an
empty local entry — so the remote content survives the collision — and the
validation step deletes an empty remote-only entry; an oversize entry aborts
the push.) -/
theorem claim_C1_amended (R L : Fmap)
    (hRres : ∀ p ∈ R, reservedName p.1 = false)
    (hLres : ∀ p ∈ L, reservedName p.1 = false)
    (hRn : (R.map Prod.fst).Nodup) (hLn : (L.map Prod.fst).Nodup)
    (hRv : ∀ p ∈ R, p.2 ≠ "" ∧ utf8Len p.2 ≤ 10485760)
    (hLv : ∀ p ∈ L, p.2 ≠ "" ∧ utf8Len p.2 ≤ 10485760) :
    ∃ M, pushMergedFiles R L = Except.ok M ∧
      (∀ k v, fget L k = some v → fget M k = some v) ∧
      (∀ k v, fget L k = none → fget R k = some v → fget M k = some v) := by
  have hfil : R.filter (fun p => !reservedName p.1) = R := by
    apply List.filter_eq_self.mpr
    intro p hp
    rw [hRres p hp]
    rfl
  have hSn : ((replaceMergeFiles R L).map Prod.fst).Nodup :=
    nodup_keys_assign (nodup_keys_assign (by simp) _) _
  have hMval : ∀ p ∈ updateGistMerge R (replaceMergeFiles R L),
      p.2 ≠ "" ∧ utf8Len p.2 ≤ 10485760 := by
    intro p hp
    simp only [updateGistMerge] at hp
    rcases mem_foldNE hp with h | h
    · rcases mem_assign h with h' | h'
      · simp at h'
      · exact hRv p (List.mem_of_mem_filter h')
    · simp only [replaceMergeFiles] at h
      rcases mem_assign h with h' | h'
      · rcases mem_assign h' with h'' | h''
        · simp at h''
        · exact hRv p (List.mem_of_mem_filter h'')
      · exact hLv p h'
  have hfS : ∀ k, fget (replaceMergeFiles R L) k =
      match fget L k with
      | some v => some v
      | none => fget R k := by
    intro k
    simp only [replaceMergeFiles]
    rw [fget_assign hLn]
    cases fget L k with
    | some v => rfl
    | none =>
      simp only
      rw [hfil, fget_assign hRn]
      cases fget R k with
      | some v => rfl
      | none => simp [fget]
  refine ⟨updateGistMerge R (replaceMergeFiles R L), ?_, ?_, ?_⟩
  · exact validateAndCleanFiles_ok hMval
  · intro k v hk
    have hv : v ≠ "" := (hLv (k, v) (fget_mem hk)).1
    simp only [updateGistMerge]
    rw [fget_foldNE hSn, hfS k, hk]
    simp [hv]
  · intro k v hkL hkR
    have hv : v ≠ "" := (hRv (k, v) (fget_mem hkR)).1
    simp only [updateGistMerge]
    rw [fget_foldNE hSn, hfS k, hkL, hkR]
    simp [hv]

/-- C1 witness: the amended theorem applied at a concrete remote/local pair. -/
theorem claim_C1_witness :
    ∃ M, pushMergedFiles [("keybindings.json", "kb\n")] [("settings.json", "x\n")]
        = Except.ok M ∧
      (∀ k v, fget [(("settings.json" : String), ("x\n" : String))] k = some v →
        fget M k = some v) ∧
      (∀ k v, fget [(("settings.json" : String), ("x\n" : String))] k = none →
        fget [(("keybindings.json" : String), ("kb\n" : String))] k = some v →
        fget M k = some v) :=
  claim_C1_amended [("keybindings.json", "kb\n")] [("settings.json", "x\n")]
    (by decide) (by decide) (by decide) (by decide) (by decide) (by decide)

/-- C2 counterexample: `settings.json` content that is not valid JSON is
classified valid and included in the transmitted gist format unchanged
(plus a trailing newline) instead of being marked invalid and excluded. -/
theorem claim_C2_cex :
    getFileType "settings.json" = FKind.json ∧
      strTrim "\x7b not json" ≠ "" ∧
      jsonOk "\x7b not json" = false ∧
      processSingleFile "settings.json" "\x7b not json"
        = ⟨"\x7b not json\n", FKind.json, true⟩ ∧
      fget (convertToGistFormat
          [("settings.json", processSingleFile "settings.json" "\x7b not json")])
        "settings.json" = some "\x7b not json\n" := by
  refine ⟨by decide, by decide, by decide, by decide, by decide⟩

/-- C2 (amended): a json-category file with non-empty (after trimming)
content is always marked valid and transmitted as-is apart from an appended
trailing newline — the code performs no JSON parse check and no repair; only
empty/whitespace-only content is marked invalid (and hence excluded). -/
theorem claim_C2_amended (name content : String) (hj : getFileType name = FKind.json) :
    (strTrim content ≠ "" →
      processSingleFile name content = ⟨padNl content, FKind.json, true⟩) ∧
    (strTrim content = "" →
      processSingleFile name content = ⟨"", FKind.json, false⟩) := by
  unfold processSingleFile
  rw [hj]
  unfold processJsonFile
  constructor
  · intro h; rw [if_neg h]
  · intro h; rw [if_pos h]

/-- C2 witness: the amended theorem applied to malformed JSON content. -/
theorem claim_C2_witness :
    (strTrim "\x7b not json" ≠ "" →
      processSingleFile "settings.json" "\x7b not json"
        = ⟨padNl "\x7b not json", FKind.json, true⟩) ∧
    (strTrim "\x7b not json" = "" →
      processSingleFile "settings.json" "\x7b not json"
        = ⟨"", FKind.json, false⟩) :=
  claim_C2_amended "settings.json" "\x7b not json" (by decide)

/-- C3: the self-healing transition does not happen.  With a stored gist id
whose gist no longer exists remotely (a 404 on the fetch),
`replaceGistWithMerge` clears and saves the stored id and throws, but its own
catch swallows the error, so `pushConfiguration`'s `'no longer exists'`
fallback never runs: no new gist is created (`createdIds = []`), no id is
stored (`cfgGistId = none`), and the user sees a push-failure message. -/
theorem claim_C3_code_bug :
    pushConfigurationModel cfgWithToken tableParse "2024-01-01T00:00:00.000Z"
        [("settings.json", "x\n")] ["settings.json"] "newgist1"
        ⟨some "g1", some "g1", [], [], []⟩
      = ⟨none, none, [], [],
         ["Failed to replace Gist: Stored gist ID g1 no longer exists. Please try pushing again to create a new gist."]⟩ := by
  decide

/-- C6: the identity file serialized into every created or updated gist is
independent of the credential's `personalAccessToken` and of the local-only
`includedDirectories` selection: changing only those two fields leaves the
identity-file content — indeed the entire transmitted file set — unchanged. -/
theorem claim_C6 (c : ExtensionConfig) (tok : String) (sel : List String)
    (now : String) (files : List String) (fileContents existingFiles : Fmap)
    (fnames : List String) :
    identityFileContent
        {c with github := {c.github with personalAccessToken := tok},
                includedDirectories := sel}
      = identityFileContent c ∧
    createGistFiles
        {c with github := {c.github with personalAccessToken := tok},
                includedDirectories := sel} now files fileContents
      = createGistFiles c now files fileContents ∧
    updateGistPayload
        {c with github := {c.github with personalAccessToken := tok},
                includedDirectories := sel} now existingFiles fnames fileContents
      = updateGistPayload c now existingFiles fnames fileContents :=
  ⟨rfl, rfl, rfl⟩

/-- C6 witness: the hyperproperty applied at two concrete configurations
differing only in the token and the selection list. -/
theorem claim_C6_witness :
    identityFileContent
        {getDefaultConfig with
          github := {getDefaultConfig.github with personalAccessToken := "secret-token"},
          includedDirectories := ["settings.json"]}
      = identityFileContent getDefaultConfig ∧
    createGistFiles
        {getDefaultConfig with
          github := {getDefaultConfig.github with personalAccessToken := "secret-token"},
          includedDirectories := ["settings.json"]} "T" ["settings.json"] []
      = createGistFiles getDefaultConfig "T" ["settings.json"] [] ∧
    updateGistPayload
        {getDefaultConfig with
          github := {getDefaultConfig.github with personalAccessToken := "secret-token"},
          includedDirectories := ["settings.json"]} "T" [] ["settings.json"] []
      = updateGistPayload getDefaultConfig "T" [] ["settings.json"] [] :=
  claim_C6 getDefaultConfig "secret-token" ["settings.json"] "T" ["settings.json"] [] [] ["settings.json"]

theorem mem_cleanupFold (ident : String) (parse : String → Option ParsedMeta) (ex : String)
    (l : List Gist) : ∀ (acc : List Gist) (h : Gist),
    (h ∈ l.foldl (fun acc g =>
        if g.id = ex then acc
        else if gistOwned ident parse g.files then acc.filter (fun x => x.id ≠ g.id)
        else acc) acc)
      ↔ (h ∈ acc ∧ ∀ g ∈ l, g.id ≠ ex → gistOwned ident parse g.files = true → h.id ≠ g.id) := by
  induction l with
  | nil => intro acc h; simp
  | cons g t ih =>
    intro acc h
    simp only [List.foldl]
    by_cases hex : g.id = ex
    · rw [if_pos hex, ih]
      constructor
      · rintro ⟨h1, h2⟩
        refine ⟨h1, fun g' hg' hne hown => ?_⟩
        rcases List.mem_cons.mp hg' with rfl | hg'
        · exact absurd hex hne
        · exact h2 g' hg' hne hown
      · rintro ⟨h1, h2⟩
        exact ⟨h1, fun g' hg' hne hown => h2 g' (List.mem_cons_of_mem _ hg') hne hown⟩
    · rw [if_neg hex]
      by_cases hown : gistOwned ident parse g.files
      · rw [if_pos hown, ih]
        constructor
        · rintro ⟨h1, h2⟩
          rcases List.mem_filter.mp h1 with ⟨h1', hne'⟩
          refine ⟨h1', fun g' hg' hne hown' => ?_⟩
          rcases List.mem_cons.mp hg' with rfl | hg'
          · exact of_decide_eq_true hne'
          · exact h2 g' hg' hne hown'
        · rintro ⟨h1, h2⟩
          refine ⟨List.mem_filter.mpr ⟨h1, decide_eq_true ?_⟩, fun g' hg' hne hown' =>
            h2 g' (List.mem_cons_of_mem _ hg') hne hown'⟩
          exact h2 g (List.mem_cons_self _ _) hex hown
      · rw [if_neg hown, ih]
        have hown' : ¬ gistOwned ident parse g.files = true := hown
        constructor
        · rintro ⟨h1, h2⟩
          refine ⟨h1, fun g' hg' hne ho => ?_⟩
          rcases List.mem_cons.mp hg' with rfl | hg'
          · exact absurd ho hown'
          · exact h2 g' hg' hne ho
        · rintro ⟨h1, h2⟩
          exact ⟨h1, fun g' hg' hne ho => h2 g' (List.mem_cons_of_mem _ hg') hne ho⟩

/-- C4: after a push that wrote gist `ex`, cleanup deletes every other listed
gist whose identity file parses with this extension's identity, never deletes
`ex` itself, and a parse failure on one gist (treated as non-owned) does not
prevent the deletion of the remaining owned gists — afterwards every owned
gist left is `ex`. -/
theorem claim_C4 (ident : String) (parse : String → Option ParsedMeta) (ex : String)
    (store : List Gist) :
    (∀ g ∈ store, g.id ≠ ex → gistOwned ident parse g.files = true →
      g ∉ cleanupOldGists ident parse ex store) ∧
    (∀ g ∈ store, g.id = ex → g ∈ cleanupOldGists ident parse ex store) ∧
    (∀ g ∈ cleanupOldGists ident parse ex store,
      gistOwned ident parse g.files = true → g.id = ex) := by
  refine ⟨?_, ?_, ?_⟩
  · intro g hg hne hown hmem
    rcases (mem_cleanupFold ident parse ex store store g).mp hmem with ⟨_, h2⟩
    exact h2 g hg hne hown rfl
  · intro g hg hid
    refine (mem_cleanupFold ident parse ex store store g).mpr ⟨hg, ?_⟩
    intro g' _ hne _ hgid
    exact hne (hgid ▸ hid)
  · intro g hmem hown
    rcases (mem_cleanupFold ident parse ex store store g).mp hmem with ⟨h1, h2⟩
    by_contra hne
    exact h2 g h1 hne hown rfl

/-- C4 witness: from three owned gists (`g1` just written, `g2`/`g4` stale)
plus one unparseable gist, cleanup removes the stale owned gists, keeps `g1`,
and the owned-gist count drops to one. -/
theorem claim_C4_witness :
    (⟨"g2", [("cursor-git-sync-storage.json", "IDENTOK")]⟩ : Gist) ∉
        cleanupOldGists "cursor-settings-sync" tableParse "g1" cleanupStoreW ∧
    (⟨"g1", [("cursor-git-sync-storage.json", "IDENTOK")]⟩ : Gist) ∈
        cleanupOldGists "cursor-settings-sync" tableParse "g1" cleanupStoreW ∧
    ((cleanupOldGists "cursor-settings-sync" tableParse "g1" cleanupStoreW).filter
        (fun g => gistOwned "cursor-settings-sync" tableParse g.files)).length = 1 :=
  ⟨(claim_C4 "cursor-settings-sync" tableParse "g1" cleanupStoreW).1 _
      (by decide) (by decide) (by decide),
   (claim_C4 "cursor-settings-sync" tableParse "g1" cleanupStoreW).2.1 _
      (by decide) (by decide),
   by decide⟩

theorem exists_of_findSome {α β : Type} {f : α → Option β} {l : List α} {b : β}
    (h : l.findSome? f = some b) : ∃ a ∈ l, f a = some b := by
  induction l with
  | nil => simp [List.findSome?] at h
  | cons x t ih =>
    cases hfx : f x with
    | some y =>
      simp only [List.findSome?, hfx] at h
      exact ⟨x, List.mem_cons_self _ _, by rw [hfx, h]⟩
    | none =>
      simp only [List.findSome?, hfx] at h
      rcases ih h with ⟨a, ha, hfa⟩
      exact ⟨a, List.mem_cons_of_mem _ ha, hfa⟩

theorem findSome_eq_of_unique {α β : Type} {f : α → Option β} {l : List α} {r : β}
    (huniq : ∀ a ∈ l, ∀ b, f a = some b → b = r)
    (hex : ∃ a ∈ l, (f a).isSome) :
    l.findSome? f = some r := by
  induction l with
  | nil => rcases hex with ⟨a, ha, _⟩; simp at ha
  | cons x t ih =>
    cases hfx : f x with
    | some y =>
      have hy : y = r := huniq x (List.mem_cons_self _ _) y hfx
      simp only [List.findSome?, hfx, hy]
    | none =>
      have hex' : ∃ a ∈ t, (f a).isSome := by
        rcases hex with ⟨a, ha, hs⟩
        rcases List.mem_cons.mp ha with rfl | ha'
        · rw [hfx] at hs; simp at hs
        · exact ⟨a, ha', hs⟩
      simp only [List.findSome?, hfx]
      exact ih (fun a ha b hb => huniq a (List.mem_cons_of_mem _ ha) b hb) hex'

/-- C5: over a gist list containing exactly one gist whose identity file
parses with `extensionName` equal to the query identity, discovery returns
that gist's id — even when that gist lacks `timestamp.json` (so tier 1 cannot
match it): tier 1 either finds the same gist or nothing, and tier 2 then
returns it.  (The `parse` hypothesis `hpe` records that `JSON.parse` fails
on the empty string.) -/
theorem claim_C5 (ident uname : String) (parse : String → Option ParsedMeta)
    (store : List Gist) (gstar : Gist) (c : String) (meta : ParsedMeta)
    (hmem : gstar ∈ store)
    (hc : fget gstar.files storageName = some c)
    (hp : parse c = some meta)
    (he : meta.extensionName = some ident)
    (huniq : ∀ g ∈ store, ∀ c2 m2, fget g.files storageName = some c2 →
      parse c2 = some m2 → m2.extensionName = some ident → g = gstar)
    (hpe : ∀ s m, parse s = some m → s ≠ "") :
    findExistingGistModel ident uname parse store = some gstar.id := by
  have hcne : c ≠ "" := hpe c meta hp
  have h1uniq : ∀ g ∈ store, ∀ y, p1Check ident parse g = some y → y = gstar.id := by
    intro g hg y h1
    cases hfc : fget g.files storageName with
    | none => simp [p1Check, hfc] at h1
    | some c2 =>
      simp only [p1Check, hfc] at h1
      by_cases hcond : (fget g.files tsName).isSome ∧ c2 ≠ ""
      · rw [if_pos hcond] at h1
        cases hp2 : parse c2 with
        | none => simp only [hp2] at h1; exact absurd h1 (by simp)
        | some m2 =>
          simp only [hp2] at h1
          by_cases hm : m2.extensionName = some ident
          · rw [if_pos hm] at h1
            injection h1 with h1'
            rw [← h1', huniq g hg c2 m2 hfc hp2 hm]
          · rw [if_neg hm] at h1; exact absurd h1 (by simp)
      · rw [if_neg hcond] at h1; exact absurd h1 (by simp)
  have h2uniq : ∀ g ∈ store, ∀ y, p2Check ident parse g = some y → y = gstar.id := by
    intro g hg y h1
    cases hfc : fget g.files storageName with
    | none => simp [p2Check, hfc] at h1
    | some c2 =>
      simp only [p2Check, hfc] at h1
      by_cases hcond : c2 ≠ ""
      · rw [if_pos hcond] at h1
        cases hp2 : parse c2 with
        | none => simp only [hp2] at h1; exact absurd h1 (by simp)
        | some m2 =>
          simp only [hp2] at h1
          by_cases hm : m2.extensionName = some ident
          · rw [if_pos hm] at h1
            injection h1 with h1'
            rw [← h1', huniq g hg c2 m2 hfc hp2 hm]
          · rw [if_neg hm] at h1; exact absurd h1 (by simp)
      · rw [if_neg hcond] at h1; exact absurd h1 (by simp)
  have h2ex : p2Check ident parse gstar = some gstar.id := by
    simp only [p2Check, hc]
    rw [if_pos hcne]
    simp only [hp]
    rw [if_pos he]
  unfold findExistingGistModel
  cases hf1 : store.findSome? (p1Check ident parse) with
  | some i =>
    rcases exists_of_findSome hf1 with ⟨g, hg, hfg⟩
    rw [h1uniq g hg i hfg]
  | none =>
    rw [findSome_eq_of_unique h2uniq ⟨gstar, hmem, by rw [h2ex]; rfl⟩]

/-- C5 witness: the unique owned gist `gY` (which has no `timestamp.json`)
is returned, past an unparseable candidate listed before it. -/
theorem claim_C5_witness :
    findExistingGistModel "cursor-settings-sync" "" tableParse findStoreW = some "gY" :=
  claim_C5 "cursor-settings-sync" "" tableParse findStoreW
    ⟨"gY", [("cursor-git-sync-storage.json", "IDENTOK")]⟩ "IDENTOK"
    ⟨some "cursor-settings-sync", none⟩
    (by decide) (by decide) (by decide) (by decide)
    (by
      intro g hg c2 m2 h1 h2 h3
      fin_cases hg
      · exfalso
        have hc2 : c2 = "garbage" := by
          have := h1
          simp only [fget, storageName] at this
          simp at this
          exact this.symm
        rw [hc2, show tableParse "garbage" = none from by decide] at h2
        exact absurd h2 (by simp)
      · rfl)
    (by
      intro s m h hs
      rw [hs, show tableParse "" = none from by decide] at h
      exact absurd h (by simp))

theorem map_fst_filter_key (l : Fmap) (p : String → Bool) :
    (l.filter (fun q => p q.1)).map Prod.fst = (l.map Prod.fst).filter p := by
  induction l with
  | nil => rfl
  | cons q t ih =>
    by_cases h : p q.1 <;> simp [List.filter_cons, h, ih]

theorem keys_extractedFiles (files : Fmap) :
    (extractedFiles files).map Prod.fst =
      (files.map Prod.fst).filter
        (fun n => !(n == storageName || n == tsName ||
          n == "cursor-git-sync-manifest.json")) := by
  unfold extractedFiles
  exact map_fst_filter_key files
    (fun n => !(n == storageName || n == tsName || n == "cursor-git-sync-manifest.json"))

theorem fget_foldl_fdel (l : List String) : ∀ (b : Fmap) (k : String),
    fget (l.foldl (fun b f => fdel b f) b) k = if k ∈ l then none else fget b k := by
  induction l with
  | nil => intro b k; simp [List.foldl]
  | cons f t ih =>
    intro b k
    simp only [List.foldl]
    rw [ih]
    by_cases hk : k ∈ t
    · simp [hk]
    · by_cases hf : k = f
      · subst hf
        simp [hk, fget_fdel]
      · have hfk : ¬ f = k := fun e => hf e.symm
        simp [hk, hf, fget_fdel, hfk]

theorem keys_backupPairs (s : Fmap) (t : List String) :
    (backupPairs s t).map Prod.fst = t.filter (fun f => (fget s f).isSome) := by
  induction t with
  | nil => rfl
  | cons f t ih =>
    simp only [backupPairs, List.filterMap_cons] at *
    cases h : fget s f with
    | none => simp [h, ih, List.filter_cons]
    | some c => simp [h, ih, List.filter_cons]

theorem fget_backupPairs_mem {t : List String} (hn : t.Nodup) {f : String} (hf : f ∈ t)
    (s : Fmap) : fget (backupPairs s t) f = fget s f := by
  induction t with
  | nil => simp at hf
  | cons g t ih =>
    rcases List.nodup_cons.mp hn with ⟨hg, hn'⟩
    rcases List.mem_cons.mp hf with rfl | hf'
    · cases h : fget s f with
      | none =>
        simp only [backupPairs, List.filterMap_cons, h, Option.map_none']
        exact fget_eq_none_of_not_mem_keys
          (by
            show f ∉ (backupPairs s t).map Prod.fst
            rw [keys_backupPairs]
            intro hmem
            exact hg (List.mem_of_mem_filter hmem))
      | some c =>
        simp only [backupPairs, List.filterMap_cons, h, Option.map_some']
        simp [fget, h]
    · cases h : fget s g with
      | none =>
        simp only [backupPairs, List.filterMap_cons, h, Option.map_none']
        exact ih hn' hf'
      | some c =>
        simp only [backupPairs, List.filterMap_cons, h, Option.map_some']
        have hgf : ¬ g = f := fun e => hg (e ▸ hf')
        show fget ((g, c) :: backupPairs s t) f = fget s f
        rw [fget, if_neg hgf]
        exact ih hn' hf'

theorem fget_backupPairs_not_mem {t : List String} {f : String} (hf : f ∉ t) (s : Fmap) :
    fget (backupPairs s t) f = none :=
  fget_eq_none_of_not_mem_keys
    (by rw [keys_backupPairs]; intro h; exact hf (List.mem_of_mem_filter h))

theorem mem_backupPairs {s : Fmap} {t : List String} {f c : String} (hf : f ∈ t)
    (h : fget s f = some c) : (f, c) ∈ backupPairs s t :=
  List.mem_filterMap.mpr ⟨f, hf, by rw [h]; rfl⟩

theorem restoreStep_backup_mem_some (isM : String → String → Bool) (allFiles : Fmap)
    {targets : List String} (fs : LocalFs) (hn : targets.Nodup) {f c : String}
    (hf : f ∈ targets) (hc : fget fs.settings f = some c) :
    fget (restoreStep isM allFiles targets fs).2.backup f = some c := by
  have hpk : ((backupPairs fs.settings targets).map Prod.fst).Nodup := by
    rw [keys_backupPairs]; exact hn.filter _
  simp only [restoreStep]
  exact fget_assign_some hpk _ ((fget_backupPairs_mem hn hf fs.settings).trans hc)

theorem restoreStep_backup_mem_none (isM : String → String → Bool) (allFiles : Fmap)
    {targets : List String} (fs : LocalFs) (hn : targets.Nodup)
    (hbe : fs.backupDirExists = false → fs.backup = []) {f : String}
    (hf : f ∈ targets) (hc : fget fs.settings f = none) :
    fget (restoreStep isM allFiles targets fs).2.backup f = none := by
  have hpk : ((backupPairs fs.settings targets).map Prod.fst).Nodup := by
    rw [keys_backupPairs]; exact hn.filter _
  simp only [restoreStep]
  rw [fget_assign_none hpk _ ((fget_backupPairs_mem hn hf fs.settings).trans hc)]
  simp only [conflictsOf]
  cases hd : fs.backupDirExists with
  | false =>
    rw [if_neg (by simp)]
    simp [List.foldl, hbe hd, fget]
  | true =>
    rw [if_pos rfl, fget_foldl_fdel]
    by_cases hcf : f ∈ targets.filter (fun x => (fget fs.backup x).isSome)
    · rw [if_pos hcf]
    · rw [if_neg hcf]
      have : ¬ (fget fs.backup f).isSome := by
        intro hs
        exact hcf (List.mem_filter.mpr ⟨hf, by simpa using hs⟩)
      simpa [Option.isSome_iff_ne_none] using this

theorem restoreStep_backup_not_mem (isM : String → String → Bool) (allFiles : Fmap)
    {targets : List String} (fs : LocalFs) (hn : targets.Nodup) {f : String}
    (hf : f ∉ targets) :
    fget (restoreStep isM allFiles targets fs).2.backup f = fget fs.backup f := by
  have hpk : ((backupPairs fs.settings targets).map Prod.fst).Nodup := by
    rw [keys_backupPairs]; exact hn.filter _
  simp only [restoreStep]
  rw [fget_assign_none hpk _ (fget_backupPairs_not_mem hf fs.settings)]
  simp only [conflictsOf]
  cases hd : fs.backupDirExists with
  | false =>
    rw [if_neg (by simp)]
    simp [List.foldl]
  | true =>
    rw [if_pos rfl, fget_foldl_fdel,
      if_neg (fun hc => hf (List.mem_of_mem_filter hc))]

theorem restoreStep_events (isM : String → String → Bool) (allFiles : Fmap)
    (targets : List String) (fs : LocalFs) :
    ∃ pre post, (restoreStep isM allFiles targets fs).1 = pre ++ post ∧
      (∀ e ∈ pre, ∀ n c, e ≠ LocalEvent.settingsWrite n c) ∧
      (∀ f c, f ∈ targets → fget fs.settings f = some c →
        LocalEvent.backupWrite f c ∈ pre) ∧
      (∀ f, f ∈ targets → ∃ c, LocalEvent.settingsWrite f c ∈ post) := by
  refine ⟨(conflictsOf fs targets).map LocalEvent.backupDelete ++
      (backupPairs fs.settings targets).map (fun p => LocalEvent.backupWrite p.1 p.2),
    ((targets.filter (fun f => isM f ((fget allFiles f).getD "")) ++
        targets.filter (fun f => !isM f ((fget allFiles f).getD ""))).map
          (fun f => (f, (fget allFiles f).getD ""))).map
      (fun p => LocalEvent.settingsWrite p.1 p.2), ?_, ?_, ?_, ?_⟩
  · simp [restoreStep]
  · intro e he n c
    rcases List.mem_append.mp he with h | h
    · rcases List.mem_map.mp h with ⟨x, _, hx⟩
      rw [← hx]
      intro hcontra
      exact LocalEvent.noConfusion hcontra
    · rcases List.mem_map.mp h with ⟨x, _, hx⟩
      rw [← hx]
      intro hcontra
      exact LocalEvent.noConfusion hcontra
  · intro f c hf hc
    exact List.mem_append.mpr (Or.inr
      (List.mem_map.mpr ⟨(f, c), mem_backupPairs hf hc, rfl⟩))
  · intro f hf
    refine ⟨(fget allFiles f).getD "", ?_⟩
    apply List.mem_map.mpr
    refine ⟨(f, (fget allFiles f).getD ""), ?_, rfl⟩
    apply List.mem_map.mpr
    refine ⟨f, ?_, rfl⟩
    apply List.mem_append.mpr
    by_cases hm : isM f ((fget allFiles f).getD "")
    · exact Or.inl (List.mem_filter.mpr ⟨hf, by simpa using hm⟩)
    · exact Or.inr (List.mem_filter.mpr ⟨hf, by simpa using hm⟩)

theorem pull_ok_inversion (ident : String) (parse : String → Option ParsedMeta)
    (isM : String → String → Bool) (selection : List String) (gid : String)
    (store : List Gist) (fs : LocalFs) (restored : List String)
    (hout : (pullConfigurationModel ident parse isM selection (some gid) store fs).outcome
      = Except.ok restored) :
    ∃ files, storeGet store gid = some files ∧
      restored = restoreTargets selection files ∧
      pullConfigurationModel ident parse isM selection (some gid) store fs =
        ⟨Except.ok restored, [RemoteOp.fetch gid],
         (restoreStep isM (extractedFiles files) restored fs).1,
         (restoreStep isM (extractedFiles files) restored fs).2⟩ := by
  by_cases hsel : selection.isEmpty
  · simp [pullConfigurationModel, hsel] at hout
  · cases hsg : storeGet store gid with
    | none => simp [pullConfigurationModel, hsel, hsg] at hout
    | some files =>
      cases hts : fget files tsName with
      | none => simp [pullConfigurationModel, hsel, hsg, hts] at hout
      | some tc =>
        cases hv : verifyTimestamp ident parse tc with
        | some e => simp [pullConfigurationModel, hsel, hsg, hts, hv] at hout
        | none =>
          by_cases hte : (restoreTargets selection files).isEmpty
          · simp [pullConfigurationModel, hsel, hsg, hts, hv, hte] at hout
          · have hre : restoreTargets selection files = restored := by
              have h2 := hout
              simp [pullConfigurationModel, hsel, hsg, hts, hv, hte] at h2
              exact h2
            refine ⟨files, rfl, hre.symm, ?_⟩
            rw [← hre]
            simp [pullConfigurationModel, hsel, hsg, hts, hv, hte]

/-- C9: on every successful pull, for each restored file its pre-pull local
content (when it exists) ends up as the single backup copy; targets without a
pre-pull local copy end up with no backup copy (a stale one is deleted);
files outside the restored set keep their old backup entries; and in the
event trace every backup write comes strictly before every settings write. -/
theorem claim_C9 (ident : String) (parse : String → Option ParsedMeta)
    (isM : String → String → Bool) (selection : List String) (gid : String)
    (store : List Gist) (fs : LocalFs) (restored : List String)
    (hnod : ∀ g ∈ store, (g.files.map Prod.fst).Nodup)
    (hbe : fs.backupDirExists = false → fs.backup = [])
    (hout : (pullConfigurationModel ident parse isM selection (some gid) store fs).outcome
      = Except.ok restored) :
    (∀ f c, f ∈ restored → fget fs.settings f = some c →
      fget (pullConfigurationModel ident parse isM selection (some gid) store fs).fs.backup f
        = some c) ∧
    (∀ f, f ∈ restored → fget fs.settings f = none →
      fget (pullConfigurationModel ident parse isM selection (some gid) store fs).fs.backup f
        = none) ∧
    (∀ f, f ∉ restored →
      fget (pullConfigurationModel ident parse isM selection (some gid) store fs).fs.backup f
        = fget fs.backup f) ∧
    (∃ pre post,
      (pullConfigurationModel ident parse isM selection (some gid) store fs).events
        = pre ++ post ∧
      (∀ e ∈ pre, ∀ n c, e ≠ LocalEvent.settingsWrite n c) ∧
      (∀ f c, f ∈ restored → fget fs.settings f = some c →
        LocalEvent.backupWrite f c ∈ pre) ∧
      (∀ f, f ∈ restored → ∃ c, LocalEvent.settingsWrite f c ∈ post)) := by
  rcases pull_ok_inversion ident parse isM selection gid store fs restored hout with
    ⟨files, hsg, hre, heq⟩
  have hfmem : ∃ g ∈ store, g.files = files := by
    unfold storeGet at hsg
    cases hfind : store.find? (fun g => g.id == gid) with
    | none => rw [hfind] at hsg; simp at hsg
    | some g =>
      rw [hfind] at hsg
      simp at hsg
      exact ⟨g, List.mem_of_find?_eq_some hfind, hsg⟩
  have hfn : (files.map Prod.fst).Nodup := by
    rcases hfmem with ⟨g, hgm, hge⟩
    rw [← hge]
    exact hnod g hgm
  have htn : restored.Nodup := by
    rw [hre]
    unfold restoreTargets
    apply List.Nodup.filter
    rw [keys_extractedFiles]
    exact hfn.filter _
  rw [heq]
  exact ⟨fun f c hf hc => restoreStep_backup_mem_some isM (extractedFiles files) fs htn hf hc,
         fun f hf hc =>
           restoreStep_backup_mem_none isM (extractedFiles files) fs htn hbe hf hc,
         fun f hf => restoreStep_backup_not_mem isM (extractedFiles files) fs htn hf,
         restoreStep_events isM (extractedFiles files) restored fs⟩

/-- C9 witness: pulling `settings.json` over an existing local copy with a
stale backup replaces the stale copy with the pre-pull content. -/
theorem claim_C9_witness :
    fget (pullConfigurationModel "cursor-settings-sync" tableParse (fun _ _ => false)
        ["settings.json"] (some "g1")
        [⟨"g1", [("timestamp.json", "IDENTOK"), ("settings.json", "new")]⟩]
        ⟨[("settings.json", "old")], true, [("settings.json", "stale")]⟩).fs.backup
      "settings.json" = some "old" :=
  (claim_C9 "cursor-settings-sync" tableParse (fun _ _ => false) ["settings.json"] "g1"
      [⟨"g1", [("timestamp.json", "IDENTOK"), ("settings.json", "new")]⟩]
      ⟨[("settings.json", "old")], true, [("settings.json", "stale")]⟩ ["settings.json"]
      (by decide) (by decide) (by decide)).1
    "settings.json" "old" (by decide) (by decide)

/-- C7 (amended): once a pull has fetched its gist, (1) an absent
`timestamp.json` is a hard failure (`noTimestamp`), not a skipped
verification; (2) a present but empty/whitespace-only manifest skips
verification and the pull proceeds (the only error still possible afterwards
is `noMatchingSelection`); (3) for present, non-empty, parseable content the
pull fails with `identityMismatch` iff its `extensionName` differs from the
local identity; (4) present, non-empty, unparseable content fails with
`invalidTimestampFormat`. -/
theorem claim_C7_amended (ident : String) (parse : String → Option ParsedMeta)
    (isM : String → String → Bool) (selection : List String) (gid : String)
    (store : List Gist) (fs : LocalFs) (files : Fmap)
    (hsel : selection.isEmpty = false)
    (hsg : storeGet store gid = some files) :
    (fget files tsName = none →
      (pullConfigurationModel ident parse isM selection (some gid) store fs).outcome
        = Except.error PullError.noTimestamp) ∧
    (∀ tc, fget files tsName = some tc → strTrim tc = "" →
      ∀ e, (pullConfigurationModel ident parse isM selection (some gid) store fs).outcome
          = Except.error e →
        e = PullError.noMatchingSelection) ∧
    (∀ tc td, fget files tsName = some tc → strTrim tc ≠ "" → parse tc = some td →
      ((pullConfigurationModel ident parse isM selection (some gid) store fs).outcome
          = Except.error PullError.identityMismatch ↔
        td.extensionName ≠ some ident)) ∧
    (∀ tc, fget files tsName = some tc → strTrim tc ≠ "" → parse tc = none →
      (pullConfigurationModel ident parse isM selection (some gid) store fs).outcome
        = Except.error PullError.invalidTimestampFormat) := by
  refine ⟨?_, ?_, ?_, ?_⟩
  · intro hts
    simp [pullConfigurationModel, hsel, hsg, hts]
  · intro tc hts h0 e he
    have hv : verifyTimestamp ident parse tc = none := by simp [verifyTimestamp, h0]
    by_cases hte : (restoreTargets selection files).isEmpty
    · simp [pullConfigurationModel, hsel, hsg, hts, hv, hte] at he
      exact he.symm
    · simp [pullConfigurationModel, hsel, hsg, hts, hv, hte] at he
  · intro tc td hts h0 hp
    by_cases hm : td.extensionName = some ident
    · have hv : verifyTimestamp ident parse tc = none := by
        simp [verifyTimestamp, h0, hp, hm]
      constructor
      · intro he
        by_cases hte : (restoreTargets selection files).isEmpty <;>
          simp [pullConfigurationModel, hsel, hsg, hts, hv, hte] at he
      · intro hne
        exact absurd hm hne
    · have hv : verifyTimestamp ident parse tc = some PullError.identityMismatch := by
        simp [verifyTimestamp, h0, hp, hm]
      constructor
      · intro _
        exact hm
      · intro _
        simp [pullConfigurationModel, hsel, hsg, hts, hv]
  · intro tc hts h0 hp
    have hv : verifyTimestamp ident parse tc = some PullError.invalidTimestampFormat := by
      simp [verifyTimestamp, h0, hp]
    simp [pullConfigurationModel, hsel, hsg, hts, hv]

/-- C7 counterexample: a gist with no `timestamp.json` at all makes the pull
fail with a missing-manifest error instead of skipping verification and
proceeding as the claim states. -/
theorem claim_C7_cex :
    pullConfigurationModel "cursor-settings-sync" tableParse (fun _ _ => false)
        ["settings.json"] (some "g1") [⟨"g1", [("settings.json", "x")]⟩] ⟨[], false, []⟩
      = ⟨Except.error PullError.noTimestamp, [RemoteOp.fetch "g1"], [], ⟨[], false, []⟩⟩ := by
  decide

/-- C7 witness: the amended theorem applied at a gist whose manifest parses
with the matching identity — the pull does not fail with identity mismatch. -/
theorem claim_C7_witness :
    ¬ ((pullConfigurationModel "cursor-settings-sync" tableParse (fun _ _ => false)
        ["settings.json"] (some "g1")
        [⟨"g1", [("timestamp.json", "IDENTOK"), ("settings.json", "new")]⟩]
        ⟨[], false, []⟩).outcome = Except.error PullError.identityMismatch) :=
  fun h =>
    absurd rfl
      (((claim_C7_amended "cursor-settings-sync" tableParse (fun _ _ => false)
          ["settings.json"] "g1"
          [⟨"g1", [("timestamp.json", "IDENTOK"), ("settings.json", "new")]⟩]
          ⟨[], false, []⟩ [("timestamp.json", "IDENTOK"), ("settings.json", "new")]
          (by decide) (by decide)).2.2.1 "IDENTOK" ⟨some "cursor-settings-sync", none⟩
          (by decide) (by decide) (by decide)).mp h)

theorem restoreTargets_eq (sel : List String) (files : Fmap) :
    restoreTargets sel files =
      (files.map Prod.fst).filter (fun n => !isInternalName n && matchesSelection sel n) := by
  unfold restoreTargets
  rw [keys_extractedFiles, List.filter_filter]
  apply List.filter_congr
  intro n _
  by_cases h1 : strStarts n "cursor-git-sync-" = true
  · simp [isInternalName, h1]
  · by_cases h2 : n = tsName
    · simp [isInternalName, h2]
    · have hs : ¬ (n = storageName) := fun e => h1 (by rw [e]; decide)
      have hm : ¬ (n = "cursor-git-sync-manifest.json") := fun e => h1 (by rw [e]; decide)
      simp [isInternalName, h1, h2, hs, hm]

/-- C8 (amended): with the reserved/internal names taken as every name
starting with `cursor-git-sync-` plus `timestamp.json` (the code's filter),
a verified pull fails with `NoMatchingSelection` — touching no local file
and taking no backup — if and only if no other remote filename equals a
selection entry, is nested under one, or is a selection entry's `.json`
counterpart. -/
theorem claim_C8_amended (ident : String) (parse : String → Option ParsedMeta)
    (isM : String → String → Bool) (selection : List String) (gid : String)
    (store : List Gist) (fs : LocalFs) (files : Fmap) (tc : String)
    (hsel : selection.isEmpty = false)
    (hsg : storeGet store gid = some files)
    (hts : fget files tsName = some tc)
    (hver : verifyTimestamp ident parse tc = none) :
    ((pullConfigurationModel ident parse isM selection (some gid) store fs).outcome
        = Except.error PullError.noMatchingSelection ↔
      ∀ n ∈ files.map Prod.fst,
        ¬(isInternalName n = false ∧ matchesSelection selection n = true)) ∧
    ((pullConfigurationModel ident parse isM selection (some gid) store fs).outcome
        = Except.error PullError.noMatchingSelection →
      (pullConfigurationModel ident parse isM selection (some gid) store fs).events = [] ∧
      (pullConfigurationModel ident parse isM selection (some gid) store fs).fs = fs) := by
  have hkey : ((restoreTargets selection files).isEmpty = true) ↔
      ∀ n ∈ files.map Prod.fst,
        ¬(isInternalName n = false ∧ matchesSelection selection n = true) := by
    rw [List.isEmpty_iff, restoreTargets_eq, List.filter_eq_nil_iff]
    constructor
    · intro h n hn
      have hx := h n hn
      rintro ⟨hi, hmm⟩
      rw [hi, hmm] at hx
      simp at hx
    · intro h n hn
      have hx := h n hn
      cases hI : isInternalName n with
      | true => simp [hI]
      | false =>
        cases hM : matchesSelection selection n with
        | false => simp [hM]
        | true => exact absurd ⟨hI, hM⟩ hx
  constructor
  · constructor
    · intro he
      by_cases hte : (restoreTargets selection files).isEmpty
      · exact hkey.mp hte
      · simp [pullConfigurationModel, hsel, hsg, hts, hver, hte] at he
    · intro h
      have hte := hkey.mpr h
      simp [pullConfigurationModel, hsel, hsg, hts, hver, hte]
  · intro he
    by_cases hte : (restoreTargets selection files).isEmpty
    · constructor <;> simp [pullConfigurationModel, hsel, hsg, hts, hver, hte]
    · simp [pullConfigurationModel, hsel, hsg, hts, hver, hte] at he

/-- C8 counterexample: `cursor-git-sync-manifest.json` is not one of the two
reserved names, is present remotely, and equals the selection entry, yet the
pull fails with `NoMatchingSelection` — the code's exclusion covers every
name with the internal `cursor-git-sync-` prefix, not only the two reserved
names. -/
theorem claim_C8_cex :
    pullConfigurationModel "cursor-settings-sync" tableParse (fun _ _ => false)
        ["cursor-git-sync-manifest.json"] (some "g1")
        [⟨"g1", [("timestamp.json", ""), ("cursor-git-sync-manifest.json", "m")]⟩]
        ⟨[], false, []⟩
      = ⟨Except.error PullError.noMatchingSelection, [RemoteOp.fetch "g1"], [], ⟨[], false, []⟩⟩ ∧
    ("cursor-git-sync-manifest.json" ≠ storageName ∧
      "cursor-git-sync-manifest.json" ≠ tsName) ∧
    fget [(("timestamp.json" : String), ("" : String)),
        ("cursor-git-sync-manifest.json", "m")] "cursor-git-sync-manifest.json"
      = some "m" := by
  refine ⟨by decide, ⟨by decide, by decide⟩, by decide⟩

/-- C8 witness: the amended equivalence applied at a store where one
non-internal remote file matches the selection, so the pull does not fail. -/
theorem claim_C8_witness :
    ¬ ((pullConfigurationModel "cursor-settings-sync" tableParse (fun _ _ => false)
        ["settings.json"] (some "g1")
        [⟨"g1", [("timestamp.json", ""), ("settings.json", "x")]⟩]
        ⟨[], false, []⟩).outcome = Except.error PullError.noMatchingSelection) :=
  fun h =>
    absurd
      (((claim_C8_amended "cursor-settings-sync" tableParse (fun _ _ => false)
          ["settings.json"] "g1"
          [⟨"g1", [("timestamp.json", ""), ("settings.json", "x")]⟩]
          ⟨[], false, []⟩ [("timestamp.json", ""), ("settings.json", "x")] ""
          (by decide) (by decide) (by decide) (by decide)).1.mp h)
        "settings.json" (by decide))
      (by decide)

/-- C10: every pull issues only fetch requests against the remote store (and
at most one), so replaying a pull's remote requests leaves the store — every
gist's id and file contents — unchanged, whether the pull succeeds or fails. -/
theorem claim_C10 (ident : String) (parse : String → Option ParsedMeta)
    (isM : String → String → Bool) (selection : List String)
    (cfgGistId : Option String) (store : List Gist) (fs : LocalFs) :
    (∀ op ∈ (pullConfigurationModel ident parse isM selection cfgGistId store fs).remoteOps,
      ∃ g, op = RemoteOp.fetch g) ∧
    (pullConfigurationModel ident parse isM selection cfgGistId store fs).remoteOps.foldl
        applyRemoteOp store = store := by
  have h : (pullConfigurationModel ident parse isM selection cfgGistId store fs).remoteOps = []
      ∨ ∃ g, (pullConfigurationModel ident parse isM selection cfgGistId store fs).remoteOps
          = [RemoteOp.fetch g] := by
    cases cfgGistId with
    | none => left; rfl
    | some gid =>
      by_cases hsel : selection.isEmpty
      · left; simp [pullConfigurationModel, hsel]
      · cases hsg : storeGet store gid with
        | none => right; exact ⟨gid, by simp [pullConfigurationModel, hsel, hsg]⟩
        | some files =>
          cases hts : fget files tsName with
          | none => right; exact ⟨gid, by simp [pullConfigurationModel, hsel, hsg, hts]⟩
          | some tc =>
            cases hv : verifyTimestamp ident parse tc with
            | some e =>
              right; exact ⟨gid, by simp [pullConfigurationModel, hsel, hsg, hts, hv]⟩
            | none =>
              by_cases hte : (restoreTargets selection files).isEmpty
              · right
                exact ⟨gid, by simp [pullConfigurationModel, hsel, hsg, hts, hv, hte]⟩
              · right
                exact ⟨gid, by simp [pullConfigurationModel, hsel, hsg, hts, hv, hte]⟩
  rcases h with h | ⟨g, h⟩ <;> rw [h]
  · exact ⟨fun op hop => absurd hop (by simp), rfl⟩
  · refine ⟨fun op hop => ⟨g, by simpa using hop⟩, rfl⟩

/-- C10 witness: a concrete pull's remote-request trace leaves the store
unchanged. -/
theorem claim_C10_witness :
    (pullConfigurationModel "cursor-settings-sync" tableParse (fun _ _ => false)
        ["settings.json"] (some "g1")
        [⟨"g1", [("timestamp.json", ""), ("settings.json", "x")]⟩]
        ⟨[], false, []⟩).remoteOps.foldl applyRemoteOp
      [⟨"g1", [("timestamp.json", ""), ("settings.json", "x")]⟩]
    = [⟨"g1", [("timestamp.json", ""), ("settings.json", "x")]⟩] :=
  (claim_C10 "cursor-settings-sync" tableParse (fun _ _ => false) ["settings.json"]
    (some "g1") [⟨"g1", [("timestamp.json", ""), ("settings.json", "x")]⟩]
    ⟨[], false, []⟩).2
